import Mathlib

/-
Verification development for the arc-overhang G-code post-processor
(`arc_overhangs_v1.0.0.py`).  The Python program is shallowly embedded:
pure helper functions become Lean functions over `ℚ`, `ℝ`, `List` and
`Set`; the stateful main loop becomes explicit state passing.  Geometric
queries answered by the shapely library (emptiness of an intersection,
whether a circle touches the boundary, which polygons are valid
overhangs, the rewritten lines of a layer) are modelled as oracle
functions that are universally quantified in the theorems, so every
theorem holds for the actual geometry as a special case.
-/

namespace ArcOverhang

/-! ### String containment (Python's `"pat" in line`) -/

/-- Bool-valued substring test on character lists: some suffix of `l`
starts with `pat`.  Models Python's `pat in line`. -/
def hasSubList (pat : List Char) : List Char → Bool
  | [] => pat.isEmpty
  | c :: cs => pat.isPrefixOf (c :: cs) || hasSubList pat cs

/-- `strHas s pat` models Python's `pat in s` for strings. -/
def strHas (s pat : String) : Bool :=
  hasSubList pat.toList s.toList

/-- The layer-change marker the tokenizer splits at (source line 509). -/
def layerChangeMarker : String := ";LAYER_CHANGE"

/-! ### `splitGCodeIntoLayers` (source lines 504-517)

The Python loop keeps a `buff` of lines for the current layer, flushes
it whenever a line contains `;LAYER_CHANGE` (the marker line starting
the next buffer), and appends the final buffer after the loop. -/

/-- The loop body of `splitGCodeIntoLayers` with the running buffer made
explicit. -/
def splitAux (buff : List String) : List String → List (List String)
  | [] => [buff]
  | line :: rest =>
    if strHas line layerChangeMarker then
      buff :: splitAux [line] rest
    else
      splitAux (buff ++ [line]) rest

/-- `splitGCodeIntoLayers` from the source: split the G-code lines into
layers at `;LAYER_CHANGE` lines. -/
def splitGCodeIntoLayers (gcode : List String) : List (List String) :=
  splitAux [] gcode

/-! ### The special-cooling window (source lines 279-287)

```
maxZ = layer.z + parameters.get("specialCoolingZdist")
idoffset = 1
currZ = layer.z
while currZ < maxZ and idl + idoffset <= len(layerobjs) - 1:
    currZ = layerobjs[idl + idoffset].z
    layerobjs[idl + idoffset].oldpolys.extend(layer.validpolys)
    idoffset += 1
```
The while condition examines `currZ`, which is the z of the layer
*before* the one about to be extended (the overhang layer itself on the
first pass).  `zs` below lists the z heights of the layers after the
overhang layer, in order; the result is the list of 0-based offsets into
`zs` that get the polygons appended. -/

/-- One unrolling of the while loop: `cz` is the current value of
`currZ`, `k` the 0-based offset of the next candidate layer. -/
def coolingExtendIdxsAux (maxZ : ℚ) (cz : ℚ) (k : ℕ) : List ℚ → List ℕ
  | [] => []
  | z :: rest =>
    if cz < maxZ then k :: coolingExtendIdxsAux maxZ z (k + 1) rest
    else []

/-- Offsets (0-based, offset `k` meaning layer `idl + 1 + k`) of the
layers whose `oldpolys` receive the overhang layer's valid polygons. -/
def coolingExtendIdxs (zL dist : ℚ) (zs : List ℚ) : List ℕ :=
  coolingExtendIdxsAux (zL + dist) zL 0 zs

/-! ### Settings and `checkforNecesarrySettings` (source lines 1568-1587)

Only the fields the check reads are modelled.  Values that PrusaSlicer
writes as `0`/`1` literals are modelled as `Int` with Python truthiness
(`0` is falsy); widths and speeds are rationals.  The function's
`warnings.warn` calls are console side effects only and do not change
the returned Bool, so they are not modelled. -/

structure GSettings where
  use_relative_e_distances : Int
  extrusion_width : ℚ
  perimeter_extrusion_width : ℚ
  solid_infill_extrusion_width : ℚ
  overhangs : Int
  bridge_speed : ℚ
  infill_first : Int
  external_perimeters_first : Int
  avoid_crossing_perimeters : Int
deriving DecidableEq

/-- `checkforNecesarrySettings`: returns `false` when relative e-distances
are off, when one of the three extrusion widths is below 0.001, or when
overhang detection is off; otherwise `true`. -/
def checkforNecesarrySettings (s : GSettings) : Bool :=
  if s.use_relative_e_distances = 0 then false
  else if s.extrusion_width < 1/1000 ∨ s.perimeter_extrusion_width < 1/1000
      ∨ s.solid_infill_extrusion_width < 1/1000 then false
  else if s.overhangs = 0 then false
  else true

/-! ### The main loop (source lines 234-487)

A layer carries its text lines, its z height and its `oldpolys` list
(polygon identifiers pushed forward by lower overhang layers).  The
geometry-dependent and content-dependent decisions of the loop are an
oracle:

* `validFn idl`  — identifiers of the polygons `verifyinfillpolys`
  accepts on layer `idl` (`layer.validpolys`);
* `succFn idl p` — whether arc generation for polygon `p` of layer `idl`
  reaches the end of the per-polygon body (lines 374-375) rather than
  hitting one of the `continue` branches;
* `zFn idl`      — the z height `addZ` parses for layer `idl`;
* `rewriteFn idl lines` — the lines of the `modifiedlayer` the rewriting
  block (lines 397-466) builds for layer `idl`.

`gcodeWasModified` is set exactly when some valid polygon of some layer
succeeds, and the file is written only when it is set (lines 468-485). -/

structure GeomOracle where
  validFn : ℕ → List ℕ
  succFn : ℕ → ℕ → Bool
  zFn : ℕ → ℚ
  rewriteFn : ℕ → List String → List String
  doSpecialCooling : Bool
  coolDist : ℚ

structure LayerM where
  lines : List String
  z : ℚ
  oldpolys : List ℕ
deriving DecidableEq, Inhabited

inductive RunOutcome where
  | settingsError
  | unchanged
  | written (content : List String)
deriving DecidableEq

/-- What ends up in the file: `some c` when the processor writes `c`,
`none` when it writes nothing (file left byte-for-byte untouched). -/
def writesOutput : RunOutcome → Option (List String)
  | .written c => some c
  | _ => none

/-- Build the initial `layerobjs` list (source lines 254-259): one layer
object per split layer, lines kept verbatim, z parsed (oracle `zFn`),
`oldpolys` empty. -/
def initObjs (P : GeomOracle) : ℕ → List (List String) → List LayerM
  | _, [] => []
  | i, ls :: rest => ⟨ls, P.zFn i, []⟩ :: initObjs P (i + 1) rest

/-- `layerobjs[idl + idoffset].oldpolys.extend(layer.validpolys)`. -/
def addOldPolys (ids : List ℕ) (l : LayerM) : LayerM :=
  { l with oldpolys := l.oldpolys ++ ids }

/-- In-place update of one list element (Python `layerobjs[j] = ...`). -/
def modifyAt (f : LayerM → LayerM) : ℕ → List LayerM → List LayerM
  | _, [] => []
  | 0, x :: xs => f x :: xs
  | n + 1, x :: xs => x :: modifyAt f n xs

/-- The cooling-window push of source lines 279-287: when layer `idl`
has valid polygons, append them to the `oldpolys` of the layers at the
offsets `coolingExtendIdxs` selects. -/
def layerOldPolysPush (P : GeomOracle) (objs : List LayerM) (idl : ℕ) : List LayerM :=
  if (P.validFn idl).isEmpty then objs
  else
    (coolingExtendIdxs (objs.getD idl default).z P.coolDist
        ((objs.drop (idl + 1)).map (fun l => l.z))).foldl
      (fun o k => modifyAt (addOldPolys (P.validFn idl)) (idl + 1 + k) o) objs

/-- One iteration of `for idl, layer in enumerate(layerobjs)`.  The state
is the current `layerobjs` list plus the `gcodeWasModified` flag.
Layers with `idl < 2` are skipped (`continue`, lines 263-264).  Otherwise,
when `validpolys` is non-empty the polygons are pushed into the cooling
window of later layers; `gcodeWasModified` is raised when some valid
polygon succeeds (lines 374-375); the layer object is replaced by its
rewritten version when `modify` was set (lines 397-466), which also
happens when special cooling applies to a layer with inherited
`oldpolys` after some earlier modification (lines 377-379). -/
def layerStep (P : GeomOracle) (st : List LayerM × Bool) (idl : ℕ) :
    List LayerM × Bool :=
  if idl < 2 then st
  else
    let objs1 := layerOldPolysPush P st.1 idl
    let succ := (P.validFn idl).any (P.succFn idl)
    let wasMod := st.2 || succ
    let doModify := succ ||
      (P.doSpecialCooling && !(objs1.getD idl default).oldpolys.isEmpty && wasMod)
    (if doModify then
        modifyAt (fun l => { l with lines := P.rewriteFn idl l.lines }) idl objs1
      else objs1,
     wasMod)

/-- The whole `for idl, layer in enumerate(layerobjs)` loop. -/
def mainLoop (P : GeomOracle) (objs : List LayerM) : List LayerM × Bool :=
  (List.range objs.length).foldl (layerStep P) (objs, false)

/-- `main` (source lines 234-487): settings check, split into layers,
the per-layer loop, and the final write — the file is written only when
`gcodeWasModified` is true. -/
def mainModel (s : GSettings) (P : GeomOracle) (input : List String) : RunOutcome :=
  if checkforNecesarrySettings s = false then .settingsError
  else if (mainLoop P (initObjs P 0 (splitGCodeIntoLayers input))).2 then
    .written (((mainLoop P (initObjs P 0 (splitGCodeIntoLayers input))).1.map
      (fun l => l.lines)).flatten)
  else .unchanged

/-! ### `generateMultipleConcentricArcs` (source lines 1420-1434)

```
r_values = np.arange(rMin, rMax + ArcWidth, ArcWidth)
for r in r_values:
    arc = Arc(startpt, r).generateConcentricArc(startpt, remainingSpace)
    if arc.is_empty: break
    arcs.append(arcObj)
    if intersects(basePoly, arc) and not UseLeastAmountOfCenterPoints: break
```
The two geometric tests depend only on the radius once the start point,
the remaining space and the base polygon are fixed, so they are the
oracles `isEmptyO` and `intersectsBaseO`. -/

/-- `np.arange` with an explicit element count `n`: `start`,
`start + step`, …, `n` elements. -/
def arangeFrom (start step : ℚ) : ℕ → List ℚ
  | 0 => []
  | n + 1 => start :: arangeFrom (start + step) step n

/-- `np.arange(start, stop, step)` for positive step:
`⌈(stop - start) / step⌉` elements starting at `start`. -/
def arange (start stop step : ℚ) : List ℚ :=
  arangeFrom start step (⌈(stop - start) / step⌉.toNat)

/-- The data of one `Arc(center, r)` object that the radius claims are
about. -/
structure ArcM where
  center : ℚ × ℚ
  r : ℚ
deriving DecidableEq

/-- The `for r in r_values` loop body of `generateMultipleConcentricArcs`. -/
def goArcs (startpt : ℚ × ℚ) (isEmptyO intersectsBaseO : ℚ → Bool)
    (useLeast : Bool) : List ℚ → List ArcM
  | [] => []
  | r :: rest =>
    if isEmptyO r then []
    else
      ArcM.mk startpt r ::
        (if intersectsBaseO r && !useLeast then []
         else goArcs startpt isEmptyO intersectsBaseO useLeast rest)

def generateMultipleConcentricArcs (startpt : ℚ × ℚ) (rMin rMax arcWidth : ℚ)
    (isEmptyO intersectsBaseO : ℚ → Bool) (useLeast : Bool) : List ArcM :=
  goArcs startpt isEmptyO intersectsBaseO useLeast
    (arange rMin (rMax + arcWidth) arcWidth)

/-- `"ArcCenterOffset": 1.5 * nozzle_diameter` (source line 178). -/
def defaultArcCenterOffset (nozzle : ℚ) : ℚ := 3/2 * nozzle

/-- `"ArcWidth": nozzle_diameter * 0.95` (source line 186). -/
def defaultArcWidth (nozzle : ℚ) : ℚ := nozzle * (19/20)

/-- Consecutive elements of the list differ by exactly `w`. -/
def consecDiffIs (w : ℚ) : List ℚ → Prop
  | a :: b :: rest => b - a = w ∧ consecDiffIs w (b :: rest)
  | _ => True

/-! ### `BridgeInfill` (source lines 1193-1197) and `spotBridgeInfill`
(source lines 908-912)

`def __init__(self, pts=[], id=randint(1, int(1e10)))`: the default for
`id` is drawn *once*, when the class statement executes, and is shared
by every construction that omits the argument — as `spotBridgeInfill`
does for every bridge-infill feature.  `classDefaultId` below is that
one value. -/

structure BridgeInfillM where
  pts : List (ℚ × ℚ)
  deleteLater : Bool
  id : ℕ
deriving DecidableEq

/-- `BridgeInfill(infillpts)` — construction relying on the default
`id`, which is the single value `classDefaultId` fixed at class
definition time. -/
def mkBridgeInfillDefault (classDefaultId : ℕ) (pts : List (ℚ × ℚ)) : BridgeInfillM :=
  { pts := pts, deleteLater := false, id := classDefaultId }

/-- `spotBridgeInfill`: one `BridgeInfill(infillpts)` per detected
bridge-infill part. -/
def spotBridgeInfill (classDefaultId : ℕ) (parts : List (List (ℚ × ℚ))) :
    List BridgeInfillM :=
  parts.map (mkBridgeInfillDefault classDefaultId)

/-! ### Planar geometry over ℝ

The helpers below embed the float geometry of the script exactly, with
`ℝ` in place of IEEE doubles. -/

abbrev Pt := ℝ × ℝ

/-- Euclidean distance (shapely `distance`, `math.hypot`). -/
noncomputable def ptDist (p q : Pt) : ℝ :=
  Real.sqrt ((q.1 - p.1) ^ 2 + (q.2 - p.2) ^ 2)

/-- Length of a polyline = sum of its segment lengths (shapely
`LineString.length`). -/
noncomputable def polylineLength : List Pt → ℝ
  | p :: q :: rest => ptDist p q + polylineLength (q :: rest)
  | _ => 0

/-- `midpoint` (source lines 1245-1247). -/
noncomputable def midpointPt (p q : Pt) : Pt := ((p.1 + q.1) / 2, (p.2 + q.2) / 2)

/-! ### `getStartPtOnLS` (source lines 1249-1301), single LineString,
`choseRandom=False`

The Python loop appends a score for every vertex index: `0` for the two
endpoints; `lengthscore + anglescore` (or `lengthscore` alone when one
of the adjacent edge vectors is zero) for interior vertices.
`curLength` accumulates the polyline length up to the current vertex,
so at interior index `i` it equals the length of `pts.take (i+1)`. -/

/-- `lengthscore = 1 - abs(relLength - 0.5)` where `relLength` is the
arc-length position of vertex `i` relative to the total length. -/
noncomputable def lengthscore (pts : List Pt) (i : ℕ) : ℝ :=
  1 - |polylineLength (pts.take (i + 1)) / polylineLength pts - 1/2|

/-- `anglescore = abs(sin(arccos(clip(v1·v2, -1, 1)))) * CornerImportanceMultiplier`
for the normalized adjacent edge vectors, or `0` when one of them is a
zero vector (in which case only `lengthscore` is appended). -/
noncomputable def anglescore (mult : ℝ) (pts : List Pt) (i : ℕ) : ℝ :=
  let a := pts.getD (i - 1) (0, 0)
  let b := pts.getD i (0, 0)
  let c := pts.getD (i + 1) (0, 0)
  let v1 : Pt := (b.1 - a.1, b.2 - a.2)
  let v2 : Pt := (c.1 - b.1, c.2 - b.2)
  let n1 := Real.sqrt (v1.1 ^ 2 + v1.2 ^ 2)
  let n2 := Real.sqrt (v2.1 ^ 2 + v2.2 ^ 2)
  if 0 < n1 ∧ 0 < n2 then
    |Real.sin (Real.arccos (min (max ((v1.1 / n1) * (v2.1 / n2) + (v1.2 / n1) * (v2.2 / n2)) (-1)) 1))| * mult
  else 0

/-- The score appended for vertex `i`: endpoints get `0`
(`scores.append(0)` under `if idp == 0 or idp == len(pts) - 1`). -/
noncomputable def vertexScore (mult : ℝ) (pts : List Pt) (i : ℕ) : ℝ :=
  if i = 0 ∨ i = pts.length - 1 then 0
  else lengthscore pts i + anglescore mult pts i

/-- The full `scores` list built by the loop. -/
noncomputable def scoresList (mult : ℝ) (pts : List Pt) : List ℝ :=
  (List.range pts.length).map (vertexScore mult pts)

/-- `max(scores)` for a nonempty list. -/
noncomputable def listMax : List ℝ → ℝ
  | [] => 0
  | [x] => x
  | x :: y :: rest => max x (listMax (y :: rest))

/-- `scores.index(max(scores))`: the first index attaining the maximum. -/
noncomputable def idxOfMax : List ℝ → ℕ
  | [] => 0
  | [_] => 0
  | x :: y :: rest => if listMax (y :: rest) ≤ x then 0 else idxOfMax (y :: rest) + 1

/-- `getStartPtOnLS` on a single LineString with vertex list `pts`
(`choseRandom=False`): the midpoint for exactly two vertices, otherwise
the vertex with the highest score. -/
noncomputable def getStartPtOnLS (mult : ℝ) (pts : List Pt) : Pt :=
  if pts.length = 2 then midpointPt (pts.getD 0 (0, 0)) (pts.getD 1 (0, 0))
  else pts.getD (idxOfMax (scoresList mult pts)) (0, 0)

/-! ### `move_toward_point` (source lines 1368-1402) and
`arc2GCode` (source lines 1624-1659)

Emitted G-code lines are modelled as structured commands instead of
text, one constructor per kind of line `arc2GCode` appends. -/

/-- `math.atan2 y x`, realized as the argument of the complex number
`x + y·i` (both have range `(-π, π]` and send the origin to `0`). -/
noncomputable def pyAtan2 (y x : ℝ) : ℝ := Complex.arg ⟨x, y⟩

/-- `math.degrees`. -/
noncomputable def degreesOf (a : ℝ) : ℝ := a * 180 / Real.pi

/-- `math.radians`. -/
noncomputable def radiansOf (d : ℝ) : ℝ := d * Real.pi / 180

/-- `move_toward_point(start, target, distance, angle_correction)`. -/
noncomputable def move_toward_point (sp tp : Pt) (d angleCorrection : ℝ) : Pt :=
  let dx := tp.1 - sp.1
  let dy := tp.2 - sp.2
  let mag := Real.sqrt (dx ^ 2 + dy ^ 2)
  if mag = 0 then sp
  else
    let angle := degreesOf (pyAtan2 (dy / mag) (dx / mag))
    let newAngle := angle + angleCorrection
    (sp.1 + Real.cos (radiansOf newAngle) * d, sp.2 + Real.sin (radiansOf newAngle) * d)

/-- One emitted G-code line of `arc2GCode`: retract/unretract, the
`;Arc … Length:` comment, a motion command `G1 X Y E [F]`, or a bare
feedrate command `G1 F`. -/
inductive GCmd where
  | retractCmd (isRetract : Bool)
  | lengthComment (len : ℝ)
  | moveCmd (p : Pt) (e : ℝ) (f : Option ℝ)
  | feedCmd (f : ℝ)

/-- `np.clip(x, lo, hi)`. -/
noncomputable def clipNp (x lo hi : ℝ) : ℝ := min (max x lo) hi

/-- The `idp >= 1` part of the `for idp, p in enumerate(pts)` loop of
`arc2GCode`: `p1` is the last point a move was emitted for; points
closer than `GCodeArcPtMinDist` are dropped; after the final point the
tangential extension move is appended. -/
noncomputable def walkArc (eSteps minPtDist extDist : ℝ) (pExtendEnd : Pt) :
    Pt → List Pt → List GCmd
  | _, [] => []
  | p1, [p] =>
    (if minPtDist < ptDist p1 p then [GCmd.moveCmd p (ptDist p1 p * eSteps) none] else [])
      ++ [GCmd.moveCmd pExtendEnd (extDist * eSteps) none]
  | p1, p :: q :: rest =>
    if minPtDist < ptDist p1 p then
      GCmd.moveCmd p (ptDist p1 p * eSteps) none ::
        walkArc eSteps minPtDist extDist pExtendEnd p (q :: rest)
    else walkArc eSteps minPtDist extDist pExtendEnd p1 (q :: rest)

/-- `arc2GCode(arcline, eSteps, …)`: for fewer than two points return
`[]`; otherwise emit retract, the length comment, the travel to the
tangentially extended start, the move onto the start point, unretract,
the feedrate command `clip(length / ArcSlowDownBelowThisDuration * 60,
ArcMinPrintSpeed, ArcPrintSpeed)`, then walk the polyline. -/
noncomputable def arc2GCode (eSteps extDist slowDur minSpeed maxSpeed travelF minPtDist : ℝ) :
    List Pt → List GCmd
  | p0 :: p1 :: rest =>
    let pExtendBegin := move_toward_point p0 p1 extDist (-90)
    let rev := (p0 :: p1 :: rest).reverse
    let pExtendEnd := move_toward_point (rev.getD 0 p0) (rev.getD 1 p0) extDist 90
    let arcPrintSpeed :=
      clipNp (polylineLength (p0 :: p1 :: rest) / slowDur * 60) minSpeed maxSpeed
    [GCmd.retractCmd true,
     GCmd.lengthComment (polylineLength (p0 :: p1 :: rest)),
     GCmd.moveCmd pExtendBegin 0 (some travelF),
     GCmd.moveCmd p0 (ptDist pExtendBegin p0 * eSteps) none,
     GCmd.retractCmd false,
     GCmd.feedCmd arcPrintSpeed]
      ++ walkArc eSteps minPtDist extDist pExtendEnd p0 (p1 :: rest)
  | _ => []

/-! ### `fill_remaining_space` coverage update (source line 1227)

`filled_space = intersection(poly, unary_union((filled_space,
Polygon(last_arc.circle))))` — regions are sets of points of the
plane. -/

/-- The `filled_space` update of one successful iteration. -/
def fillStep (poly filled disk : Set (ℝ × ℝ)) : Set (ℝ × ℝ) :=
  poly ∩ (filled ∪ disk)

/-- Folding the update over the disks of successive iterations. -/
def fillIterate (poly : Set (ℝ × ℝ)) (filled : Set (ℝ × ℝ)) :
    List (Set (ℝ × ℝ)) → Set (ℝ × ℝ)
  | [] => filled
  | d :: ds => fillIterate poly (fillStep poly filled d) ds

/-! ### Concrete instances used by the witnesses -/

/-- A settings record that passes `checkforNecesarrySettings`. -/
def sGood : GSettings :=
  { use_relative_e_distances := 1, extrusion_width := 1/2,
    perimeter_extrusion_width := 1/2, solid_infill_extrusion_width := 1/2,
    overhangs := 1, bridge_speed := 5, infill_first := 0,
    external_perimeters_first := 0, avoid_crossing_perimeters := 1 }

/-- `sGood` with relative e-distances declared as `0`. -/
def sBadRelativeE : GSettings := { sGood with use_relative_e_distances := 0 }

/-- An oracle under which no layer yields a qualifying overhang. -/
def oracleNone : GeomOracle :=
  { validFn := fun _ => [], succFn := fun _ _ => false, zFn := fun _ => 0,
    rewriteFn := fun _ ls => ls, doSpecialCooling := false, coolDist := 0 }

/-- An oracle under which layer 2 yields one successfully converted
polygon and the rewriter keeps the lines unchanged. -/
def oracleLayer2 : GeomOracle :=
  { validFn := fun i => if i = 2 then [0] else [], succFn := fun _ _ => true,
    zFn := fun _ => 0, rewriteFn := fun _ ls => ls,
    doSpecialCooling := false, coolDist := 0 }

/-- A three-layer input for the witnesses. -/
def inputW : List String :=
  [";LAYER_CHANGE", "A", ";LAYER_CHANGE", "B"]

/-! ## Theorems -/

/-! ### C9: `splitGCodeIntoLayers` is a content-preserving partition -/

/-- Every line of the input goes to exactly one buffer, in order, and
the final `gcode_list.append(buff)` makes the result nonempty. -/
theorem splitAux_flatten : ∀ (g : List String) (buff : List String),
    (splitAux buff g).flatten = buff ++ g ∧ splitAux buff g ≠ []
  | [], buff => by simp [splitAux]
  | line :: rest, buff => by
    by_cases h : strHas line layerChangeMarker
    · have ih := splitAux_flatten rest [line]
      simp [splitAux, h, ih.1]
    · have ih := splitAux_flatten rest (buff ++ [line])
      simpa [splitAux, h, ih.1] using ih.2

/-- C9: for every non-empty input line list, `splitGCodeIntoLayers`
returns a non-empty list of layers whose concatenation in order is
exactly the input (nothing dropped, duplicated or reordered). -/
theorem splitGCodeIntoLayers_partition (g : List String) (_hg : g ≠ []) :
    splitGCodeIntoLayers g ≠ [] ∧ (splitGCodeIntoLayers g).flatten = g := by
  have h := splitAux_flatten g []
  exact ⟨h.2, by simpa using h.1⟩

theorem splitGCodeIntoLayers_partition_witness :
    ((["G1 X0 Y0"] : List String) ≠ []) ∧
      (splitGCodeIntoLayers ["G1 X0 Y0"] ≠ [] ∧
        (splitGCodeIntoLayers ["G1 X0 Y0"]).flatten = ["G1 X0 Y0"]) :=
  ⟨by simp, splitGCodeIntoLayers_partition ["G1 X0 Y0"] (by simp)⟩

/-! ### C10: shared default id of `BridgeInfill` -/

/-- C10: every `BridgeInfill` constructed by `spotBridgeInfill` without
an explicit id receives the one id fixed at class-definition time, so
any two such objects have equal ids — the identifier is not unique per
bridge region. -/
theorem bridgeInfill_shared_default_id (classDefaultId : ℕ)
    (parts : List (List (ℚ × ℚ))) (b1 b2 : BridgeInfillM)
    (h1 : b1 ∈ spotBridgeInfill classDefaultId parts)
    (h2 : b2 ∈ spotBridgeInfill classDefaultId parts) :
    b1.id = b2.id ∧ b1.id = classDefaultId := by
  rcases List.mem_map.1 h1 with ⟨a1, -, rfl⟩
  rcases List.mem_map.1 h2 with ⟨a2, -, rfl⟩
  exact ⟨rfl, rfl⟩

theorem bridgeInfill_shared_default_id_witness :
    (BridgeInfillM.mk [(0, 0)] false 7 ∈ spotBridgeInfill 7 [[(0, 0)], [(1, 1)]]) ∧
    (BridgeInfillM.mk [(1, 1)] false 7 ∈ spotBridgeInfill 7 [[(0, 0)], [(1, 1)]]) ∧
    ((BridgeInfillM.mk [(0, 0)] false 7).id = (BridgeInfillM.mk [(1, 1)] false 7).id ∧
      (BridgeInfillM.mk [(0, 0)] false 7).id = 7) :=
  ⟨List.mem_cons_self _ _, List.mem_cons_of_mem _ (List.mem_cons_self _ _),
    bridgeInfill_shared_default_id 7 [[(0, 0)], [(1, 1)]] _ _
      (List.mem_cons_self _ _) (List.mem_cons_of_mem _ (List.mem_cons_self _ _))⟩

/-! ### C7: the special-cooling window -/

/-- Membership in the unrolled while loop: offset `k` (counted from
`base`) is extended iff it exists and every `currZ` value the loop saw
before reaching it — `cz` first, then the listed z heights — was below
`maxZ`. -/
theorem coolingExtendIdxsAux_mem (maxZ : ℚ) :
    ∀ (zs : List ℚ) (cz : ℚ) (base k : ℕ),
      (k ∈ coolingExtendIdxsAux maxZ cz base zs ↔
        ∃ i : ℕ, k = base + i ∧ i < zs.length ∧ cz < maxZ ∧
          ∀ j : ℕ, j < i → zs.getD j 0 < maxZ)
  | [], cz, base, k => by simp [coolingExtendIdxsAux]
  | z :: rest, cz, base, k => by
    by_cases h : cz < maxZ
    · rw [coolingExtendIdxsAux, if_pos h]
      constructor
      · intro hk
        rcases List.mem_cons.1 hk with rfl | hk
        · exact ⟨0, by omega, by simp, h, fun j hj => absurd hj (by omega)⟩
        · obtain ⟨i, hki, hi, hz, hall⟩ :=
            (coolingExtendIdxsAux_mem maxZ rest z (base + 1) k).1 hk
          refine ⟨i + 1, by omega, by simpa using hi, h, ?_⟩
          intro j hj
          cases j with
          | zero => simpa using hz
          | succ j2 => simpa using hall j2 (by omega)
      · rintro ⟨i, rfl, hi, -, hall⟩
        cases i with
        | zero => exact List.mem_cons_self _ _
        | succ i2 =>
          refine List.mem_cons_of_mem _ ?_
          refine (coolingExtendIdxsAux_mem maxZ rest z (base + 1) (base + (i2 + 1))).2 ?_
          refine ⟨i2, by omega, by simpa using hi, by simpa using hall 0 (by omega), ?_⟩
          intro j hj
          simpa using hall (j + 1) (by omega)
    · rw [coolingExtendIdxsAux, if_neg h]
      constructor
      · intro hk
        exact absurd hk (List.not_mem_nil k)
      · rintro ⟨i, -, -, hc, -⟩
        exact absurd hc h

/-- C7 (amended): the later layer at offset `k` (layer `idl + 1 + k`)
receives the polygons iff it exists, `specialCoolingZdist` is positive,
and the z heights of all the layers *before* it inside the window
(offsets `0 … k-1`) are below `L.z + specialCoolingZdist`.  The
receiving layer's own z is not consulted, so the first layer whose z
reaches or exceeds the bound still receives the polygons. -/
theorem coolingExtendIdxs_spec (zL dist : ℚ) (zs : List ℚ) (k : ℕ) :
    k ∈ coolingExtendIdxs zL dist zs ↔
      (k < zs.length ∧ 0 < dist ∧ ∀ j : ℕ, j < k → zs.getD j 0 < zL + dist) := by
  rw [coolingExtendIdxs, coolingExtendIdxsAux_mem]
  constructor
  · rintro ⟨i, rfl, hi, hz, hall⟩
    exact ⟨by simpa using hi, by linarith, by simpa using hall⟩
  · rintro ⟨hk, hd, hall⟩
    exact ⟨k, by omega, hk, by linarith, hall⟩

/-- C7 counterexample: with `L.z = 0` and `specialCoolingZdist = 3`, a
following layer of height `z = 10` — far beyond the bound `L.z + 3` —
still receives the polygons, because the while condition tested
`currZ = L.z` before updating it. -/
theorem coolingExtendIdxs_cex :
    (0 ∈ coolingExtendIdxs 0 3 [10]) ∧ ¬ ((10 : ℚ) ≤ 0 + 3) := by
  constructor
  · rw [coolingExtendIdxs, coolingExtendIdxsAux, if_pos (by norm_num : (0 : ℚ) < 0 + 3)]
    exact List.mem_cons_self _ _
  · norm_num

theorem coolingExtendIdxs_spec_witness :
    (0 ∈ coolingExtendIdxs 0 3 [1, 5] ↔
      (0 < ([1, 5] : List ℚ).length ∧ (0 : ℚ) < 3 ∧
        ∀ j : ℕ, j < 0 → ([1, 5] : List ℚ).getD j 0 < 0 + 3)) :=
  coolingExtendIdxs_spec 0 3 [1, 5] 0

/-! ### C8: relative e-distances are required -/

/-- C8: a falsy `use_relative_e_distances` makes
`checkforNecesarrySettings` return `false`, and `main` stops with the
settings error before any layer-rewriting or file-writing code runs, so
the input file is unchanged. -/
theorem checkSettings_relativeE_required (s : GSettings) (P : GeomOracle)
    (input : List String) (h : s.use_relative_e_distances = 0) :
    checkforNecesarrySettings s = false ∧
    mainModel s P input = RunOutcome.settingsError ∧
    writesOutput (mainModel s P input) = none := by
  have hc : checkforNecesarrySettings s = false := by
    simp [checkforNecesarrySettings, h]
  refine ⟨hc, ?_, ?_⟩ <;> simp [mainModel, hc, writesOutput]

theorem checkSettings_relativeE_required_witness :
    (sBadRelativeE.use_relative_e_distances = 0) ∧
    (checkforNecesarrySettings sBadRelativeE = false ∧
      mainModel sBadRelativeE oracleNone inputW = RunOutcome.settingsError ∧
      writesOutput (mainModel sBadRelativeE oracleNone inputW) = none) :=
  ⟨rfl, checkSettings_relativeE_required sBadRelativeE oracleNone inputW rfl⟩

/-! ### C4: coverage is monotone -/

/-- The update keeps `filled_space` inside the polygon and never shrinks
it, across any number of iterations. -/
theorem fillIterate_subset (poly filled : Set (ℝ × ℝ)) (h : filled ⊆ poly) :
    ∀ disks : List (Set (ℝ × ℝ)),
      filled ⊆ fillIterate poly filled disks ∧ fillIterate poly filled disks ⊆ poly
  | [] => ⟨subset_rfl, h⟩
  | d :: ds => by
    have hstep : filled ⊆ fillStep poly filled d := fun x hx => ⟨h hx, Or.inl hx⟩
    have ih := fillIterate_subset poly (fillStep poly filled d) Set.inter_subset_left ds
    exact ⟨hstep.trans ih.1, ih.2⟩

/-- C4: when the current `filled_space` is contained in the polygon, the
updated `filled_space = poly ∩ (filled ∪ disk)` contains the old one, so
its area is at least the old area; the update also re-establishes the
containment, so the area is non-decreasing across every iteration of
`fill_remaining_space`. -/
theorem fillStep_area_monotone (poly filled disk : Set (ℝ × ℝ)) (h : filled ⊆ poly) :
    MeasureTheory.volume filled ≤ MeasureTheory.volume (fillStep poly filled disk) ∧
    fillStep poly filled disk ⊆ poly ∧
    ∀ disks : List (Set (ℝ × ℝ)),
      MeasureTheory.volume filled ≤ MeasureTheory.volume (fillIterate poly filled disks) := by
  refine ⟨MeasureTheory.measure_mono (fun x hx => ⟨h hx, Or.inl hx⟩),
    Set.inter_subset_left, fun disks => ?_⟩
  exact MeasureTheory.measure_mono (fillIterate_subset poly filled h disks).1

theorem fillStep_area_monotone_witness :
    ((∅ : Set (ℝ × ℝ)) ⊆ Set.univ) ∧
    (MeasureTheory.volume (∅ : Set (ℝ × ℝ)) ≤
        MeasureTheory.volume (fillStep Set.univ ∅ ∅) ∧
      fillStep Set.univ ∅ ∅ ⊆ Set.univ ∧
      ∀ disks : List (Set (ℝ × ℝ)),
        MeasureTheory.volume (∅ : Set (ℝ × ℝ)) ≤
          MeasureTheory.volume (fillIterate Set.univ ∅ disks)) :=
  ⟨Set.empty_subset _, fillStep_area_monotone Set.univ ∅ ∅ (Set.empty_subset _)⟩

/-! ### C3: radii of one concentric bundle -/

/-- Elements of `arangeFrom` are `start + k·step` with `k < n`. -/
theorem mem_arangeFrom (step : ℚ) :
    ∀ (n : ℕ) (start r : ℚ), r ∈ arangeFrom start step n →
      ∃ k : ℕ, k < n ∧ r = start + k * step
  | 0, start, r, h => by simp [arangeFrom] at h
  | n + 1, start, r, h => by
    rw [arangeFrom] at h
    rcases List.mem_cons.1 h with rfl | h2
    · exact ⟨0, Nat.succ_pos n, by simp⟩
    · obtain ⟨k, hk, hr⟩ := mem_arangeFrom step n (start + step) r h2
      refine ⟨k + 1, by omega, ?_⟩
      rw [hr]
      push_cast
      ring

/-- Consecutive `arangeFrom` elements differ by exactly `step`. -/
theorem consecDiffIs_arangeFrom (step : ℚ) :
    ∀ (n : ℕ) (start : ℚ), consecDiffIs step (arangeFrom start step n)
  | 0, start => by simp [arangeFrom, consecDiffIs]
  | 1, start => by simp [arangeFrom, consecDiffIs]
  | n + 2, start =>
    ⟨by ring, consecDiffIs_arangeFrom step (n + 1) (start + step)⟩

/-- Taking a prefix preserves the consecutive-difference property. -/
theorem consecDiffIs_take (w : ℚ) :
    ∀ (l : List ℚ) (n : ℕ), consecDiffIs w l → consecDiffIs w (l.take n)
  | [], n, _ => by simp [consecDiffIs]
  | [a], n, _ => by cases n <;> simp [consecDiffIs]
  | a :: b :: t, 0, _ => by simp [consecDiffIs]
  | a :: b :: t, 1, _ => by simp [consecDiffIs]
  | a :: b :: t, n + 2, h =>
    ⟨h.1, consecDiffIs_take w (b :: t) (n + 1) h.2⟩

/-- The `for r in r_values` loop emits the radii of a prefix of the
radius list: each break only truncates. -/
theorem goArcs_map_r (startpt : ℚ × ℚ) (eo io : ℚ → Bool) (ul : Bool) :
    ∀ l : List ℚ, ∃ n : ℕ, (goArcs startpt eo io ul l).map (fun a => a.r) = l.take n
  | [] => ⟨0, by simp [goArcs]⟩
  | r :: rest => by
    by_cases he : eo r
    · exact ⟨0, by simp [goArcs, he]⟩
    · by_cases hi : io r && !ul
      · exact ⟨1, by simp [goArcs, he, hi]⟩
      · obtain ⟨n, hn⟩ := goArcs_map_r startpt eo io ul rest
        exact ⟨n + 1, by simp [goArcs, he, hi, hn]⟩

/-- C3 (amended): within one bundle produced by a single call to
`generateMultipleConcentricArcs` with minimum radius `rMin`, every
emitted radius `r` satisfies `rMin ≤ r < RMax + ArcWidth` (so radii can
exceed `RMax` by up to one `ArcWidth`), and consecutive arcs' radii
differ by exactly `ArcWidth`. -/
theorem generateArcs_radius_spec (startpt : ℚ × ℚ) (rMin rMax w : ℚ) (hw : 0 < w)
    (isEmptyO intersectsBaseO : ℚ → Bool) (useLeast : Bool) :
    (∀ a ∈ generateMultipleConcentricArcs startpt rMin rMax w isEmptyO intersectsBaseO useLeast,
        rMin ≤ a.r ∧ a.r < rMax + w) ∧
    consecDiffIs w ((generateMultipleConcentricArcs startpt rMin rMax w isEmptyO
        intersectsBaseO useLeast).map (fun a => a.r)) := by
  obtain ⟨n, hn⟩ := goArcs_map_r startpt isEmptyO intersectsBaseO useLeast
    (arange rMin (rMax + w) w)
  constructor
  · intro a ha
    have hmem : a.r ∈ (generateMultipleConcentricArcs startpt rMin rMax w isEmptyO
        intersectsBaseO useLeast).map (fun a => a.r) := List.mem_map_of_mem _ ha
    rw [generateMultipleConcentricArcs, hn] at hmem
    have hmem2 : a.r ∈ arange rMin (rMax + w) w := List.take_subset _ _ hmem
    rw [arange] at hmem2
    obtain ⟨k, hk, hkr⟩ := mem_arangeFrom w _ rMin a.r hmem2
    have hk0 : (0 : ℚ) ≤ (k : ℚ) * w := mul_nonneg (by positivity) hw.le
    refine ⟨by rw [hkr]; linarith, ?_⟩
    have hkZ : ((k : ℤ) : ℚ) < (rMax + w - rMin) / w := by
      have h1 : (k : ℤ) < ⌈(rMax + w - rMin) / w⌉ := Int.lt_toNat.1 hk
      exact_mod_cast Int.lt_ceil.1 h1
    have hkw : (k : ℚ) * w < rMax + w - rMin := by
      have := (lt_div_iff₀ hw).1 (by exact_mod_cast hkZ)
      linarith
    rw [hkr]; linarith
  · rw [generateMultipleConcentricArcs, hn, arange]
    exact consecDiffIs_take w _ n (consecDiffIs_arangeFrom w _ rMin)

/-- C3 counterexample: with the default parameter derivation for a
nozzle diameter of 1 (ArcCenterOffset = 1.5, ArcWidth = 0.95, RMax = 30)
and the initial-bundle minimum radius `rMinStart = nozzle_diameter`
used by `main` (source line 297), the very first emitted arc has radius
1, which is below the claimed lower bound
`ArcCenterOffset + ArcWidth/1.5 = 32/15`. -/
theorem generateArcs_radius_cex :
    (ArcM.mk (0, 0) 1 ∈ generateMultipleConcentricArcs (0, 0) 1 30 (defaultArcWidth 1)
        (fun _ => false) (fun _ => false) false) ∧
    ¬ (defaultArcCenterOffset 1 + defaultArcWidth 1 / (3/2) ≤ (1 : ℚ)) := by
  refine ⟨?_, by norm_num [defaultArcCenterOffset, defaultArcWidth]⟩
  have hceil : (⌈((30 + defaultArcWidth 1) - 1) / defaultArcWidth 1⌉ : ℤ) = 32 := by
    rw [Int.ceil_eq_iff]
    constructor <;> norm_num [defaultArcWidth]
  rw [generateMultipleConcentricArcs, arange, hceil]
  exact List.mem_cons_self _ _

theorem generateArcs_radius_spec_witness :
    ((0 : ℚ) < 1) ∧
    ((∀ a ∈ generateMultipleConcentricArcs (0, 0) 0 2 1 (fun _ => false)
          (fun _ => false) false, (0 : ℚ) ≤ a.r ∧ a.r < 2 + 1) ∧
      consecDiffIs 1 ((generateMultipleConcentricArcs (0, 0) 0 2 1 (fun _ => false)
          (fun _ => false) false).map (fun a => a.r))) :=
  ⟨by norm_num,
    generateArcs_radius_spec (0, 0) 0 2 1 (by norm_num) (fun _ => false) (fun _ => false) false⟩

/-! ### C1: no successful conversion means no output -/

/-- A layer without valid polygons leaves `gcodeWasModified` unchanged. -/
theorem layerStep_wasMod_of_valid_empty (P : GeomOracle) (st : List LayerM × Bool)
    (idl : ℕ) (h : P.validFn idl = []) : (layerStep P st idl).2 = st.2 := by
  rw [layerStep]
  by_cases h2 : idl < 2
  · rw [if_pos h2]
  · rw [if_neg h2]
    simp [h]

/-- If no layer has valid polygons the flag stays `false` through the
whole loop. -/
theorem foldl_layerStep_wasMod (P : GeomOracle) (h : ∀ i, P.validFn i = []) :
    ∀ (idxs : List ℕ) (st : List LayerM × Bool),
      (idxs.foldl (layerStep P) st).2 = st.2
  | [], st => rfl
  | i :: rest, st => by
    rw [List.foldl_cons, foldl_layerStep_wasMod P h rest _,
      layerStep_wasMod_of_valid_empty P st i (h i)]

/-- C1: when `gcodeWasModified` stays false the processor writes no
output at all, and in particular for any input in which no layer yields
a qualifying overhang (all `validpolys` empty) the original file content
is left untouched. -/
theorem mainModel_no_output_when_unmodified (s : GSettings) (P : GeomOracle)
    (input : List String) :
    ((mainLoop P (initObjs P 0 (splitGCodeIntoLayers input))).2 = false →
      writesOutput (mainModel s P input) = none) ∧
    ((∀ i, P.validFn i = []) → writesOutput (mainModel s P input) = none) := by
  have base : (mainLoop P (initObjs P 0 (splitGCodeIntoLayers input))).2 = false →
      writesOutput (mainModel s P input) = none := by
    intro hmod
    rw [mainModel]
    by_cases hc : checkforNecesarrySettings s = false
    · rw [if_pos hc]; rfl
    · rw [if_neg hc, hmod]; rfl
  refine ⟨base, fun hall => base ?_⟩
  rw [mainLoop]
  exact foldl_layerStep_wasMod P hall _ _

theorem mainModel_no_output_when_unmodified_witness :
    (∀ i, oracleNone.validFn i = []) ∧
    writesOutput (mainModel sGood oracleNone inputW) = none :=
  ⟨fun _ => rfl,
    (mainModel_no_output_when_unmodified sGood oracleNone inputW).2 (fun _ => rfl)⟩

/-! ### C2: layers 0 and 1 are never modified -/

/-- Writing at an index `≥ n` leaves the first `n` elements alone. -/
theorem modifyAt_take (f : LayerM → LayerM) :
    ∀ (l : List LayerM) (j n : ℕ), n ≤ j → (modifyAt f j l).take n = l.take n
  | [], j, n, _ => by cases j <;> rfl
  | x :: xs, j, 0, _ => by simp
  | x :: xs, 0, n + 1, h => absurd h (by omega)
  | x :: xs, j + 1, n + 1, h => by
    rw [modifyAt, List.take_succ_cons, List.take_succ_cons,
      modifyAt_take f xs j n (by omega)]

/-- The cooling-window pushes of layer `idl` only touch indices
`idl + 1 + k`, so the first two layers survive whenever `2 ≤ idl`. -/
theorem foldl_modifyAt_take2 (f : LayerM → LayerM) (idl : ℕ) (h2 : 2 ≤ idl) :
    ∀ (offs : List ℕ) (o : List LayerM),
      ((offs.foldl (fun o k => modifyAt f (idl + 1 + k) o) o).take 2) = o.take 2
  | [], o => rfl
  | k :: rest, o => by
    rw [List.foldl_cons, foldl_modifyAt_take2 f idl h2 rest _,
      modifyAt_take f o (idl + 1 + k) 2 (by omega)]

theorem layerOldPolysPush_take2 (P : GeomOracle) (objs : List LayerM) (idl : ℕ)
    (h2 : 2 ≤ idl) : (layerOldPolysPush P objs idl).take 2 = objs.take 2 := by
  rw [layerOldPolysPush]
  by_cases hv : (P.validFn idl).isEmpty
  · rw [if_pos hv]
  · rw [if_neg hv, foldl_modifyAt_take2 _ _ h2]

/-- One loop iteration never touches the first two layer objects. -/
theorem layerStep_take2 (P : GeomOracle) (st : List LayerM × Bool) (idl : ℕ)
    (h2 : 2 ≤ idl) : ((layerStep P st idl).1).take 2 = st.1.take 2 := by
  rw [layerStep, if_neg (by omega : ¬ idl < 2)]
  dsimp only
  by_cases hm : ((P.validFn idl).any (P.succFn idl) ||
      (P.doSpecialCooling &&
        !((layerOldPolysPush P st.1 idl).getD idl default).oldpolys.isEmpty &&
        (st.2 || (P.validFn idl).any (P.succFn idl)))) = true
  · rw [if_pos hm, modifyAt_take _ _ idl 2 h2, layerOldPolysPush_take2 _ _ _ h2]
  · rw [if_neg hm, layerOldPolysPush_take2 _ _ _ h2]

/-- Invariants survive `List.foldl` when each step preserves them. -/
theorem foldl_preserves {α β : Type _} (g : β → α → β) (Q : β → Prop)
    (hg : ∀ b a, Q b → Q (g b a)) : ∀ (l : List α) (b : β), Q b → Q (l.foldl g b)
  | [], _, hb => hb
  | a :: rest, b, hb => foldl_preserves g Q hg rest (g b a) (hg b a hb)

/-- The initial layer objects carry the split layers' lines verbatim. -/
theorem initObjs_map_lines (P : GeomOracle) :
    ∀ (i : ℕ) (ls : List (List String)),
      (initObjs P i ls).map (fun l => l.lines) = ls
  | _, [] => rfl
  | i, x :: rest => by
    rw [initObjs, List.map_cons, initObjs_map_lines P (i + 1) rest]

/-- The main loop only runs `layerStep` at indices drawn from
`List.range`, and every step fixes the first two layers. -/
theorem mainLoop_take2 (P : GeomOracle) (objs : List LayerM) :
    ((mainLoop P objs).1).take 2 = objs.take 2 := by
  rw [mainLoop]
  refine foldl_preserves (layerStep P) (fun st => st.1.take 2 = objs.take 2)
    (fun st i h => ?_) (List.range objs.length) (objs, false) rfl
  show (layerStep P st i).1.take 2 = objs.take 2
  by_cases h2 : i < 2
  · rw [layerStep, if_pos h2]; exact h
  · rw [layerStep_take2 P st i (by omega)]; exact h

/-- C2: the lines of layers 0 and 1 appear unchanged in the output — the
loop never replaces, deletes or injects into a layer of index `< 2`, and
the written file starts with those layers' lines verbatim. -/
theorem mainLoop_preserves_first_two_layers (s : GSettings) (P : GeomOracle)
    (input : List String) :
    (((mainLoop P (initObjs P 0 (splitGCodeIntoLayers input))).1.map
        (fun l => l.lines)).take 2 = (splitGCodeIntoLayers input).take 2) ∧
    (∀ c, mainModel s P input = RunOutcome.written c →
      c = ((splitGCodeIntoLayers input).take 2).flatten ++
        (((mainLoop P (initObjs P 0 (splitGCodeIntoLayers input))).1.map
          (fun l => l.lines)).drop 2).flatten) := by
  have hmap : ((mainLoop P (initObjs P 0 (splitGCodeIntoLayers input))).1.map
      (fun l => l.lines)).take 2 = (splitGCodeIntoLayers input).take 2 := by
    rw [← List.map_take, mainLoop_take2, List.map_take, initObjs_map_lines]
  refine ⟨hmap, fun c hc => ?_⟩
  rw [mainModel] at hc
  by_cases hchk : checkforNecesarrySettings s = false
  · rw [if_pos hchk] at hc; cases hc
  · rw [if_neg hchk] at hc
    by_cases hm : (mainLoop P (initObjs P 0 (splitGCodeIntoLayers input))).2 = true
    · rw [if_pos hm] at hc
      cases hc
      rw [← hmap, ← List.flatten_append, List.take_append_drop]
    · rw [if_neg hm] at hc; cases hc

theorem mainLoop_preserves_first_two_layers_witness :
    mainModel sGood oracleLayer2 inputW = RunOutcome.written inputW ∧
    inputW = ((splitGCodeIntoLayers inputW).take 2).flatten ++
      (((mainLoop oracleLayer2 (initObjs oracleLayer2 0 (splitGCodeIntoLayers inputW))).1.map
        (fun l => l.lines)).drop 2).flatten := by
  have hchk : ¬ (checkforNecesarrySettings sGood = false) := by
    norm_num [checkforNecesarrySettings, sGood]
  have hmain : mainModel sGood oracleLayer2 inputW = RunOutcome.written inputW := by
    rw [mainModel, if_neg hchk]
    rfl
  exact ⟨hmain,
    (mainLoop_preserves_first_two_layers sGood oracleLayer2 inputW).2 inputW hmain⟩

/-! ### C5: start-point selection on a LineString -/

theorem polylineLength_nonneg : ∀ l : List Pt, 0 ≤ polylineLength l
  | [] => le_of_eq rfl
  | [_] => le_of_eq rfl
  | p :: q :: rest => by
    have h1 := polylineLength_nonneg (q :: rest)
    have h2 : 0 ≤ ptDist p q := Real.sqrt_nonneg _
    rw [show polylineLength (p :: q :: rest) = ptDist p q + polylineLength (q :: rest) from rfl]
    linarith

theorem polylineLength_take_le : ∀ (l : List Pt) (k : ℕ),
    polylineLength (l.take k) ≤ polylineLength l
  | [], k => by simp
  | [p], k => by
    cases k with
    | zero => exact le_of_eq rfl
    | succ k2 =>
      rw [List.take_succ_cons, List.take_nil]
  | p :: q :: rest, 0 => by
    simpa using polylineLength_nonneg (p :: q :: rest)
  | p :: q :: rest, 1 => by
    have h1 := polylineLength_nonneg (q :: rest)
    have h2 : 0 ≤ ptDist p q := Real.sqrt_nonneg _
    rw [show (p :: q :: rest).take 1 = [p] from rfl,
      show polylineLength [p] = 0 from rfl,
      show polylineLength (p :: q :: rest) = ptDist p q + polylineLength (q :: rest) from rfl]
    linarith
  | p :: q :: rest, (k + 2) => by
    have ih := polylineLength_take_le (q :: rest) (k + 1)
    rw [List.take_succ_cons] at ih
    rw [List.take_succ_cons, List.take_succ_cons,
      show polylineLength (p :: q :: rest.take k) =
        ptDist p q + polylineLength (q :: rest.take k) from rfl,
      show polylineLength (p :: q :: rest) = ptDist p q + polylineLength (q :: rest) from rfl]
    linarith

/-- The running relative position lies in `[0, 1]`, so the hat function
is at least `1/2` at every vertex. -/
theorem lengthscore_ge_half (pts : List Pt) (i : ℕ) : 1/2 ≤ lengthscore pts i := by
  rw [lengthscore]
  have htot := polylineLength_nonneg pts
  have hpre0 := polylineLength_nonneg (pts.take (i + 1))
  have hprele := polylineLength_take_le pts (i + 1)
  rcases eq_or_lt_of_le htot with h0 | hpos
  · rw [← h0, div_zero,
      show ((0 : ℝ) - 1/2) = -(1/2) by ring, abs_neg,
      abs_of_nonneg (by norm_num : (0 : ℝ) ≤ 1/2)]
    norm_num
  · have hdiv0 : 0 ≤ polylineLength (pts.take (i + 1)) / polylineLength pts :=
      div_nonneg hpre0 htot
    have hdiv1 : polylineLength (pts.take (i + 1)) / polylineLength pts ≤ 1 := by
      rw [div_le_one hpos]; exact hprele
    have habs : |polylineLength (pts.take (i + 1)) / polylineLength pts - 1/2| ≤ 1/2 := by
      rw [abs_le]; constructor <;> linarith
    linarith

theorem anglescore_nonneg (mult : ℝ) (pts : List Pt) (i : ℕ) (hm : 0 ≤ mult) :
    0 ≤ anglescore mult pts i := by
  rw [anglescore]
  dsimp only
  split
  · exact mul_nonneg (abs_nonneg _) hm
  · exact le_refl 0

theorem vertexScore_endpoint_left (mult : ℝ) (pts : List Pt) :
    vertexScore mult pts 0 = 0 := by
  rw [vertexScore, if_pos (Or.inl rfl)]

theorem vertexScore_endpoint_right (mult : ℝ) (pts : List Pt) :
    vertexScore mult pts (pts.length - 1) = 0 := by
  rw [vertexScore, if_pos (Or.inr rfl)]

theorem vertexScore_interior_ge (mult : ℝ) (pts : List Pt) (i : ℕ) (hm : 0 ≤ mult)
    (h0 : 0 < i) (h1 : i < pts.length - 1) : 1/2 ≤ vertexScore mult pts i := by
  rw [vertexScore, if_neg (by omega : ¬ (i = 0 ∨ i = pts.length - 1))]
  have hl := lengthscore_ge_half pts i
  have ha := anglescore_nonneg mult pts i hm
  linarith

theorem idxOfMax_lt_length : ∀ l : List ℝ, l ≠ [] → idxOfMax l < l.length
  | [], h => absurd rfl h
  | [x], _ => by rw [idxOfMax]; simp
  | x :: y :: rest, _ => by
    rw [idxOfMax]
    split
    · simp
    · have := idxOfMax_lt_length (y :: rest) (by simp)
      simpa using Nat.succ_lt_succ this

theorem getD_idxOfMax : ∀ l : List ℝ, l ≠ [] → l.getD (idxOfMax l) 0 = listMax l
  | [], h => absurd rfl h
  | [x], _ => by rw [idxOfMax, listMax]; rfl
  | x :: y :: rest, _ => by
    rw [idxOfMax, listMax]
    split
    · rename_i hle
      rw [List.getD_cons_zero, max_eq_left hle]
    · rename_i hgt
      push_neg at hgt
      have ih := getD_idxOfMax (y :: rest) (by simp)
      rw [List.getD_cons_succ, ih, max_eq_right hgt.le]

theorem getD_le_listMax : ∀ (l : List ℝ) (j : ℕ), j < l.length → l.getD j 0 ≤ listMax l
  | [], j, h => by simp at h
  | [x], 0, _ => by rw [listMax]; exact le_of_eq rfl
  | [x], j + 1, h => by simp at h
  | x :: y :: rest, 0, _ => by rw [listMax]; exact le_max_left _ _
  | x :: y :: rest, j + 1, h => by
    rw [listMax]
    have ih := getD_le_listMax (y :: rest) j (by simpa using h)
    simp only [List.getD_cons_succ]
    exact le_trans ih (le_max_right _ _)

theorem scoresList_getD (mult : ℝ) (pts : List Pt) (j : ℕ) (hj : j < pts.length) :
    (scoresList mult pts).getD j 0 = vertexScore mult pts j := by
  rw [scoresList]
  have hlen : j < ((List.range pts.length).map (vertexScore mult pts)).length := by
    simpa using hj
  rw [List.getD_eq_getElem _ _ hlen, List.getElem_map, List.getElem_range]

/-- C5: `getStartPtOnLS` on a single LineString returns the midpoint for
a two-vertex polyline; with three or more vertices it returns a vertex
that is never the first or last one, namely a first vertex maximizing
`lengthscore + anglescore` over the interior vertices. -/
theorem getStartPtOnLS_spec (mult : ℝ) (pts : List Pt) (hm : 0 ≤ mult) :
    (∀ p q : Pt, getStartPtOnLS mult [p, q] = midpointPt p q) ∧
    (3 ≤ pts.length →
      0 < idxOfMax (scoresList mult pts) ∧
      idxOfMax (scoresList mult pts) < pts.length - 1 ∧
      getStartPtOnLS mult pts = pts.getD (idxOfMax (scoresList mult pts)) (0, 0) ∧
      ∀ j : ℕ, 0 < j → j < pts.length - 1 →
        vertexScore mult pts j ≤ vertexScore mult pts (idxOfMax (scoresList mult pts))) := by
  constructor
  · intro p q
    rw [getStartPtOnLS, if_pos (by simp : ([p, q] : List Pt).length = 2)]
    rfl
  · intro h3
    have hslen : (scoresList mult pts).length = pts.length := by simp [scoresList]
    have hsne : scoresList mult pts ≠ [] := by
      intro hempty
      rw [hempty] at hslen
      simp at hslen
      omega
    have hilt : idxOfMax (scoresList mult pts) < pts.length := by
      rw [← hslen]; exact idxOfMax_lt_length _ hsne
    have hmax : (scoresList mult pts).getD (idxOfMax (scoresList mult pts)) 0 =
        listMax (scoresList mult pts) := getD_idxOfMax _ hsne
    have hgetI : (scoresList mult pts).getD (idxOfMax (scoresList mult pts)) 0 =
        vertexScore mult pts (idxOfMax (scoresList mult pts)) :=
      scoresList_getD mult pts _ hilt
    have hget1 : (scoresList mult pts).getD 1 0 = vertexScore mult pts 1 :=
      scoresList_getD mult pts 1 (by omega)
    have h1int : 1/2 ≤ vertexScore mult pts 1 :=
      vertexScore_interior_ge mult pts 1 hm (by omega) (by omega)
    have hle1 : (scoresList mult pts).getD 1 0 ≤ listMax (scoresList mult pts) :=
      getD_le_listMax _ 1 (by omega)
    have hIbig : 1/2 ≤ vertexScore mult pts (idxOfMax (scoresList mult pts)) := by
      rw [← hgetI, hmax]
      rw [hget1] at hle1
      linarith
    have hi0 : idxOfMax (scoresList mult pts) ≠ 0 := by
      intro h0
      rw [h0, vertexScore_endpoint_left] at hIbig
      linarith
    have hine : idxOfMax (scoresList mult pts) ≠ pts.length - 1 := by
      intro hlast
      rw [hlast, vertexScore_endpoint_right] at hIbig
      linarith
    refine ⟨by omega, by omega, ?_, ?_⟩
    · rw [getStartPtOnLS, if_neg (by omega : ¬ pts.length = 2)]
    · intro j hj0 hj1
      have hgj : (scoresList mult pts).getD j 0 = vertexScore mult pts j :=
        scoresList_getD mult pts j (by omega)
      have hlej := getD_le_listMax (scoresList mult pts) j (by omega)
      rw [hgj] at hlej
      rw [← hgetI, hmax]
      exact hlej

theorem getStartPtOnLS_spec_witness :
    ((0 : ℝ) ≤ 1/5) ∧
    ((∀ p q : Pt, getStartPtOnLS (1/5) [p, q] = midpointPt p q) ∧
      (3 ≤ ([(0, 0), (1, 0), (2, 0)] : List Pt).length →
        0 < idxOfMax (scoresList (1/5) [(0, 0), (1, 0), (2, 0)]) ∧
        idxOfMax (scoresList (1/5) [(0, 0), (1, 0), (2, 0)]) <
          ([(0, 0), (1, 0), (2, 0)] : List Pt).length - 1 ∧
        getStartPtOnLS (1/5) [(0, 0), (1, 0), (2, 0)] =
          ([(0, 0), (1, 0), (2, 0)] : List Pt).getD
            (idxOfMax (scoresList (1/5) [(0, 0), (1, 0), (2, 0)])) (0, 0) ∧
        ∀ j : ℕ, 0 < j → j < ([(0, 0), (1, 0), (2, 0)] : List Pt).length - 1 →
          vertexScore (1/5) [(0, 0), (1, 0), (2, 0)] j ≤
            vertexScore (1/5) [(0, 0), (1, 0), (2, 0)]
              (idxOfMax (scoresList (1/5) [(0, 0), (1, 0), (2, 0)])))) :=
  ⟨by norm_num, getStartPtOnLS_spec (1/5) [(0, 0), (1, 0), (2, 0)] (by norm_num)⟩

/-! ### C6: the feedrate set before walking an arc -/

/-- C6 (amended): the feedrate command emitted before walking the arc
polyline (the sixth emitted command) carries
`clip(arc_length / ArcSlowDownBelowThisDuration * 60, ArcMinPrintSpeed,
ArcPrintSpeed)` — the code converts the mm/s quantity to mm/min before
clamping. -/
theorem arc2GCode_feedrate_spec (eSteps extDist slowDur minSpeed maxSpeed travelF minPtDist : ℝ)
    (p0 p1 : Pt) (rest : List Pt) :
    (arc2GCode eSteps extDist slowDur minSpeed maxSpeed travelF minPtDist
        (p0 :: p1 :: rest)).get? 5
      = some (GCmd.feedCmd (clipNp (polylineLength (p0 :: p1 :: rest) / slowDur * 60)
          minSpeed maxSpeed)) := by
  rw [arc2GCode]
  rfl

theorem arc2GCode_feedrate_spec_witness :
    (arc2GCode 1 1 3 30 90 1800 (1/10) [((0 : ℝ), (0 : ℝ)), (1, 1)]).get? 5
      = some (GCmd.feedCmd (clipNp
          (polylineLength [((0 : ℝ), (0 : ℝ)), ((1 : ℝ), (1 : ℝ))] / 3 * 60) 30 90)) :=
  arc2GCode_feedrate_spec 1 1 3 30 90 1800 (1/10) (0, 0) (1, 1) []

/-- C6 counterexample: for the straight 3 mm arc from (0,0) to (3,0)
with `ArcSlowDownBelowThisDuration = 3`, `ArcMinPrintSpeed = 30` and
`ArcPrintSpeed = 90`, the emitted feedrate is `clip(3/3·60) = 60`,
whereas the claim's formula `clip(3/3) = 30` — the claim omits the ×60
unit conversion the code performs before clamping. -/
theorem arc2GCode_feedrate_cex :
    (arc2GCode 1 1 3 30 90 1800 (1/10) [((0 : ℝ), (0 : ℝ)), (3, 0)]).get? 5
      ≠ some (GCmd.feedCmd (clipNp
          (polylineLength [((0 : ℝ), (0 : ℝ)), ((3 : ℝ), (0 : ℝ))] / 3) 30 90)) := by
  have hlen : polylineLength [((0 : ℝ), (0 : ℝ)), ((3 : ℝ), (0 : ℝ))] = 3 := by
    rw [show polylineLength [((0 : ℝ), (0 : ℝ)), ((3 : ℝ), (0 : ℝ))] =
        ptDist ((0 : ℝ), (0 : ℝ)) ((3 : ℝ), (0 : ℝ)) + 0 from rfl, ptDist]
    rw [show (((3 : ℝ), (0 : ℝ)).1 - ((0 : ℝ), (0 : ℝ)).1) ^ 2 +
        (((3 : ℝ), (0 : ℝ)).2 - ((0 : ℝ), (0 : ℝ)).2) ^ 2 = 3 ^ 2 by norm_num]
    rw [Real.sqrt_sq (by norm_num : (0 : ℝ) ≤ 3)]
    norm_num
  have hL : (arc2GCode 1 1 3 30 90 1800 (1/10) [((0 : ℝ), (0 : ℝ)), (3, 0)]).get? 5
      = some (GCmd.feedCmd (clipNp
          (polylineLength [((0 : ℝ), (0 : ℝ)), ((3 : ℝ), (0 : ℝ))] / 3 * 60) 30 90)) := by
    rw [arc2GCode]
    rfl
  have h1 : clipNp ((3 : ℝ) / 3 * 60) 30 90 = 60 := by
    rw [clipNp, max_eq_left (by norm_num), min_eq_left (by norm_num)]
    norm_num
  have h2 : clipNp ((3 : ℝ) / 3) 30 90 = 30 := by
    rw [clipNp, max_eq_right (by norm_num), min_eq_left (by norm_num)]
  rw [hL, hlen]
  simp only [ne_eq, Option.some.injEq, GCmd.feedCmd.injEq]
  rw [h1, h2]
  norm_num

end ArcOverhang
